import Mathlib

/-!
# Verification of the Radiomics ROI Analyzer (`app.py`)

A shallow embedding of the volumetric reconstruction and contour-to-mask
rasterization pipeline of `app.py`.  Floating-point values (positions,
spacings, pixel intensities) are modelled as rationals `ℚ`; DICOM string
identifiers as `String`.  Fallible code paths (operations that raise a
Python exception) are modelled with `Option`, `none` standing for an
uncaught exception.
-/

/-- One CT slice as decoded by `pydicom.dcmread`: the attributes of the
dataset that `app.py` reads.  `pixels` is the raw `pixel_array`
(rows × columns, row-major); `ipp` is `ImagePositionPatient` `(x, y, z)`;
`pixelSpacing` is `PixelSpacing` `(row mm, column mm)`.  Rescale
slope/intercept are optional DICOM attributes (never read by `app.py`);
`patientID` is the optional `PatientID`
attribute read via `getattr` with default. -/
structure Slice where
  pixels : List (List ℚ)
  ipp : ℚ × ℚ × ℚ
  pixelSpacing : ℚ × ℚ
  rescaleSlope : Option ℚ
  rescaleIntercept : Option ℚ
  patientID : Option String
deriving DecidableEq, Repr, Inhabited

/-- The z component `ImagePositionPatient[2]` used as the sort key on
line 32 of `app.py`. -/
def zOf (s : Slice) : ℚ := s.ipp.2.2

/-- The ordering relation used by `slices.sort(key=lambda x: float(x.ImagePositionPatient[2]))`. -/
def sliceLE (a b : Slice) : Prop := zOf a ≤ zOf b

instance : DecidableRel sliceLE := fun a b => inferInstanceAs (Decidable (zOf a ≤ zOf b))

instance : IsTotal Slice sliceLE := ⟨fun a b => le_total (zOf a) (zOf b)⟩

instance : IsTrans Slice sliceLE := ⟨fun _ _ _ h h' => le_trans h h'⟩

/-- `slices.sort(...)`: ascending sort by the z position. -/
def sortSlices (files : List Slice) : List Slice := List.insertionSort sliceLE files

/-- The in-plane shape `(rows, columns)` of a raw pixel array. -/
def shapeOf (p : List (List ℚ)) : ℕ × ℕ := (p.length, (p.head?.map List.length).getD 0)

/-- A pixel array is rectangular: every row has the array's column count.
`pydicom` pixel arrays are rectangular by construction; `np.stack` in
addition requires all stacked arrays to share one shape. -/
def rectOk (p : List (List ℚ)) : Prop := ∀ row ∈ p, row.length = (shapeOf p).2

instance (p : List (List ℚ)) : Decidable (rectOk p) := List.decidableBAll _ p

/-- Precondition of `np.stack([s.pixel_array for s in slices], axis=-1)`
(line 33): all arrays rectangular and of one common shape.  Violation
raises `ValueError`. -/
def stackOk (slices : List Slice) : Prop :=
  ∀ s ∈ slices, rectOk s.pixels ∧
    shapeOf s.pixels = shapeOf ((slices.headD default).pixels)

instance (slices : List Slice) : Decidable (stackOk slices) := List.decidableBAll _ slices

/-- Result tuple of `load_ct_series`.  `volume` holds the stacked pixel
planes; `np.stack(..., axis=-1)` yields an array `V` with
`V[r, c, k] = slices[k].pixel_array[r, c]`, which we store as the list of
sorted planes indexed `volume[k][r][c]` (see `volGet`). -/
structure LoadResult where
  volume : List (List (List ℚ))
  slices : List Slice
  z_positions : List ℚ
  spacing : ℚ × ℚ × ℚ
  origin : ℚ × ℚ × ℚ
deriving DecidableEq, Repr

/-- Element access `V[r, c, k]` of the stacked volume. -/
def volGet (v : List (List (List ℚ))) (r c k : ℕ) : ℚ :=
  (((v.getD k []).getD r []).getD c 0)

/-- `volume.shape` = `(rows, cols, number of slices)`. -/
def volumeShape (v : List (List (List ℚ))) : ℕ × ℕ × ℕ :=
  ((v.headD []).length, ((v.headD []).headD []).length, v.length)

/-- `load_ct_series` (lines 30–41 of `app.py`): read every file, sort by
z position, stack the raw pixel arrays along the last axis, collect the
sorted z positions, and derive spacing and origin from the first ordered
slice.  `none` models an uncaught exception: an empty input set
(`np.stack` of an empty list raises) or in-plane shapes that `np.stack`
cannot stack.  No rescale slope/intercept is applied: the volume holds
raw pixel values. -/
def load_ct_series (files : List Slice) : Option LoadResult :=
  match files with
  | [] => none
  | _ :: _ =>
    let slices := sortSlices files
    if stackOk slices then
      let z_positions := slices.map zOf
      some
        { volume := slices.map (·.pixels)
          slices := slices
          z_positions := z_positions
          spacing :=
            ((slices.headD default).pixelSpacing.1,
             (slices.headD default).pixelSpacing.2,
             if 1 < z_positions.length then
               |z_positions.getD 1 0 - z_positions.getD 0 0|
             else 1)
          origin := (slices.headD default).ipp }
    else none

/-! ## Structure-set (RTSTRUCT) data model -/

/-- Item of `RTReferencedSeriesSequence`. -/
structure RTSeriesRef where
  SeriesInstanceUID : String
deriving DecidableEq, Repr

/-- Item of `RTReferencedStudySequence`. -/
structure RTStudyRef where
  RTReferencedSeriesSequence : List RTSeriesRef
deriving DecidableEq, Repr

/-- Item of `ReferencedFrameOfReferenceSequence`. -/
structure RTFrameRef where
  RTReferencedStudySequence : List RTStudyRef
deriving DecidableEq, Repr

/-- Item of `StructureSetROISequence`: a named region definition. -/
structure ROIDef where
  ROIName : String
  ROINumber : ℕ
deriving DecidableEq, Repr

/-- Item of a `ContourSequence`: `ContourData` is the flat
`x1, y1, z1, x2, y2, z2, ...` coordinate list. -/
structure ContourItem where
  ContourData : List ℚ
deriving DecidableEq, Repr

/-- Item of `ROIContourSequence`. -/
structure ROIContour where
  ReferencedROINumber : ℕ
  ContourSequence : List ContourItem
deriving DecidableEq, Repr

/-- A decoded RTSTRUCT dataset: the attributes `app.py` reads.  A missing
sequence attribute and an empty sequence are indistinguishable to the
code (both make the `[0]` chain raise, caught by the bare `except`), so
both are modelled by the empty list. -/
structure RTStruct where
  ReferencedFrameOfReferenceSequence : List RTFrameRef
  StructureSetROISequence : List ROIDef
  ROIContourSequence : List ROIContour
deriving DecidableEq, Repr

/-- `get_referenced_series_uid` (lines 46–53): walk
frame-of-reference → referenced study → referenced series and return its
`SeriesInstanceUID`; any failure in the chain is caught and yields
`None`. -/
def get_referenced_series_uid (rt : RTStruct) : Option String := do
  let fr ← rt.ReferencedFrameOfReferenceSequence.head?
  let st ← fr.RTReferencedStudySequence.head?
  let se ← st.RTReferencedSeriesSequence.head?
  pure se.SeriesInstanceUID

/-- `get_roi_names` (lines 55–56). -/
def get_roi_names (rt : RTStruct) : List String :=
  rt.StructureSetROISequence.map (·.ROIName)

/-- `get_roi_number` (lines 58–62): number of the first region whose name
matches, else `None`. -/
def get_roi_number (rt : RTStruct) (roi_name : String) : Option ℕ :=
  (rt.StructureSetROISequence.find? (fun r => r.ROIName == roi_name)).map (·.ROINumber)

/-- The `for rc in rt.ROIContourSequence` loop (lines 73–76) overwrites
`roi_contours` on every match without breaking, so the *last* matching
item wins. -/
def findRoiContours (seq : List ROIContour) (n : ℕ) : Option ROIContour :=
  seq.foldl (fun acc rc => if rc.ReferencedROINumber = n then some rc else acc) none

/-! ## Rasterization helpers -/

/-- `np.array(contour.ContourData).reshape(-1, 3)`: group the flat
coordinate list into `(x, y, z)` triples; a length not divisible by 3
raises (`none`). -/
def chunk3 : List ℚ → Option (List (ℚ × ℚ × ℚ))
  | [] => some []
  | x :: y :: z :: rest => (chunk3 rest).map (fun ps => (x, y, z) :: ps)
  | _ => none

/-- `np.argmin`: index of the first minimal element (0 for the empty
array, on which numpy would raise; `contour_to_mask` guards that case). -/
def npArgmin : List ℚ → ℕ
  | [] => 0
  | x :: xs =>
    match xs with
    | [] => 0
    | _ :: _ =>
      let j := npArgmin xs
      if x ≤ xs.getD j 0 then 0 else j + 1

/-- `np.argmin(np.abs(z_positions - z))` (line 83): the slice index whose
z position is nearest to the contour's z. -/
def sliceAssign (z_positions : List ℚ) (z : ℚ) : ℕ :=
  npArgmin (z_positions.map (fun zp => |zp - z|))

/-- Consecutive vertex pairs of a closed polygon (last vertex joined back
to the first). -/
def polyEdges (vs : List (ℚ × ℚ)) : List ((ℚ × ℚ) × (ℚ × ℚ)) :=
  match vs with
  | [] => []
  | v :: _ => vs.zip (vs.tail ++ [v])

/-- One step of the even-odd ray cast: does the edge cross the horizontal
ray from `(r, c)` towards `+∞` in the column direction?  (When the first
conjunct holds the two endpoint rows differ, so the division is by a
nonzero rational.) -/
def edgeCrosses (p : ℚ × ℚ) (e : (ℚ × ℚ) × (ℚ × ℚ)) : Bool :=
  (decide (p.1 < e.1.1) != decide (p.1 < e.2.1)) &&
    decide (p.2 < (e.2.2 - e.1.2) * (p.1 - e.1.1) / (e.2.1 - e.1.1) + e.1.2)

/-- Even-odd point-in-polygon test over the polygon with vertex rows `vr`
and columns `vc`. -/
def insideEO (vs : List (ℚ × ℚ)) (p : ℚ × ℚ) : Bool :=
  ((polyEdges vs).countP (edgeCrosses p)) % 2 == 1

/-- Model of `skimage.draw.polygon(rows, cols, shape=...)` (external
collaborator, line 86): the grid points inside the polygon, with the
`shape` argument clipping the output coordinates to
`[0, shape.1) × [0, shape.2)`. -/
def polygonPixels (rows cols : List ℚ) (shape : ℕ × ℕ) : List (ℕ × ℕ) :=
  ((List.range shape.1).flatMap (fun r => (List.range shape.2).map (fun c => (r, c)))).filter
    (fun p => insideEO (rows.zip cols) ((p.1 : ℚ), (p.2 : ℚ)))

/-! ## Masks -/

/-- A boolean mask indexed `[row][col][slice]`, mirroring
`np.zeros(volume_shape, dtype=bool)`. -/
abbrev Mask3 : Type := List (List (List Bool))

/-- `np.zeros(volume_shape, dtype=bool)` (line 69). -/
def zerosMask (sh : ℕ × ℕ × ℕ) : Mask3 :=
  List.replicate sh.1 (List.replicate sh.2.1 (List.replicate sh.2.2 false))

/-- Element read `mask[r, c, k]` (out of range reads as `False`). -/
def maskGet (m : Mask3) (r c k : ℕ) : Bool :=
  ((List.getD (List.getD m r []) c []).getD k false)

/-- Element write `mask[r, c, k] = True`; `List.set` leaves the list
unchanged on an out-of-range index, which never happens on the indices
the rasterizer produces. -/
def maskSet (m : Mask3) (r c k : ℕ) : Mask3 :=
  m.set r ((m.getD r []).set c (((m.getD r []).getD c []).set k true))

/-- A mask has exactly the shape `sh`. -/
def hasDims (m : Mask3) (sh : ℕ × ℕ × ℕ) : Prop :=
  m.length = sh.1 ∧ ∀ row ∈ m, row.length = sh.2.1 ∧ ∀ col ∈ row, col.length = sh.2.2

instance (m : Mask3) (sh : ℕ × ℕ × ℕ) : Decidable (hasDims m sh) := by
  unfold hasDims; infer_instance

/-- The body of `for contour in roi_contours.ContourSequence`
(lines 80–87) for one contour: reshape `ContourData` to points, take the
first point's z (`pts[0, 2]` raises on an empty reshape, `none`), pick
the nearest slice by `np.argmin` (raises on an empty `z_positions`),
convert the points' physical (x, y) into fractional (row, col) voxel
coordinates, fill the polygon clipped to the in-plane shape, and set the
filled pixels on the chosen slice. -/
def contourStep (volume_shape : ℕ × ℕ × ℕ) (z_positions : List ℚ)
    (spacing origin : ℚ × ℚ × ℚ) (m : Mask3) (contour : ContourItem) : Option Mask3 :=
  match chunk3 contour.ContourData with
  | none => none
  | some pts =>
    match pts with
    | [] => none
    | p0 :: _ =>
      match z_positions with
      | [] => none
      | _ :: _ =>
        let z := p0.2.2
        let slice_idx := sliceAssign z_positions z
        let rows := pts.map (fun p => (p.2.1 - origin.2.1) / spacing.1)
        let cols := pts.map (fun p => (p.1 - origin.1) / spacing.2.1)
        let pix := polygonPixels rows cols (volume_shape.1, volume_shape.2.1)
        some (pix.foldl (fun mm q => maskSet mm q.1 q.2 slice_idx) m)

/-- `contour_to_mask` (lines 67–88): rasterize the named region into a
boolean mask of `volume_shape`, accumulating `contourStep` over the
region's contours starting from the all-`False` mask.  A missing region
name or missing contour collection returns the all-`False` mask. -/
def contour_to_mask (rt : RTStruct) (roi_name : String) (volume_shape : ℕ × ℕ × ℕ)
    (z_positions : List ℚ) (spacing : ℚ × ℚ × ℚ) (origin : ℚ × ℚ × ℚ) : Option Mask3 :=
  let mask := zerosMask volume_shape
  match get_roi_number rt roi_name with
  | none => some mask
  | some roi_number =>
    match findRoiContours rt.ROIContourSequence roi_number with
    | none => some mask
    | some roi_contours =>
      roi_contours.ContourSequence.foldlM
        (contourStep volume_shape z_positions spacing origin) mask

/-! ## Statistics (lines 186–200) -/

/-- `volume[mask]` coordinate set: the `(r, c, k)` positions where the
mask is `True`, in numpy C order (row, then column, then slice). -/
def trueCoords (m : Mask3) : List (ℕ × ℕ × ℕ) :=
  m.enum.flatMap (fun rp => rp.2.enum.flatMap (fun cp =>
    (cp.2.enum.filter (fun kb => kb.2)).map (fun kb => (rp.1, cp.1, kb.1))))

/-- `vals = volume[mask]` (line 186): the volume's values at the mask's
`True` positions. -/
def maskedValues (vol : List (List (List ℚ))) (m : Mask3) : List ℚ :=
  (trueCoords m).map (fun rck => volGet vol rck.1 rck.2.1 rck.2.2)

/-- `np.mean`. -/
def npMean (vals : List ℚ) : ℚ := vals.sum / vals.length

/-- The square of `np.std` with its default `ddof=0`: the mean of the
squared deviations from the mean (population variance, divisor `N`).
Kept squared so that the value stays rational; the emitted STD is its
square root. -/
def npVarPop (vals : List ℚ) : ℚ :=
  ((vals.map (fun x => (x - npMean vals) ^ 2)).sum) / vals.length

/-- `np.min` of a nonempty array (0 on the empty array, where numpy
raises; the caller guards `len(vals) == 0`). -/
def npMin : List ℚ → ℚ
  | [] => 0
  | x :: xs => xs.foldl min x

/-- `np.max`, same convention as `npMin`. -/
def npMax : List ℚ → ℚ
  | [] => 0
  | x :: xs => xs.foldl max x

/-- One result-table row (lines 191–200).  `STDsq` carries the square of
the emitted `STD` value (see `npVarPop`). -/
structure StatsRecord where
  PatientID : String
  SeriesUID : String
  ROI : String
  Mean : ℚ
  STDsq : ℚ
  MinV : ℚ
  MaxV : ℚ
  N_voxels : ℕ
deriving DecidableEq, Repr

/-- The record appended for one `(patient, region)` pair with a nonempty
value selection. -/
def mkRecord (pid uid roi : String) (vals : List ℚ) : StatsRecord :=
  { PatientID := pid, SeriesUID := uid, ROI := roi,
    Mean := npMean vals, STDsq := npVarPop vals,
    MinV := npMin vals, MaxV := npMax vals, N_voxels := vals.length }

/-! ## DICOM scan and series matching (lines 119–143) -/

/-- What `pydicom.dcmread(file, stop_before_pixels=True)` reveals about
one scanned file: its modality and the attributes the scan loop uses. -/
inductive Dataset where
  | ct (seriesUID : String)
  | rtstruct (rt : RTStruct)
  | other
deriving DecidableEq, Repr

/-- One file met by the scan loop; `parsed = none` models `dcmread`
raising (swallowed by the loop's bare `except`). -/
structure ScanFile where
  path : String
  parsed : Option Dataset
deriving DecidableEq, Repr

/-- `ct_map`: series UID → list of file paths (dict insertion order). -/
abbrev CTMap := List (String × List String)

/-- `rt_map`: referenced series UID → RTSTRUCT document.  The Python
dict stores the file's path and re-reads it later; we carry the decoded
document.  Later assignments win, modelled by cons-front with
first-match lookup. -/
abbrev RTMap := List (String × RTStruct)

/-- `ct_map.setdefault(uid, []).append(str(file))` (line 130). -/
def ctInsert : CTMap → String → String → CTMap
  | [], uid, path => [(uid, [path])]
  | (k, ps) :: rest, uid, path =>
    if k = uid then (k, ps ++ [path]) :: rest
    else (k, ps) :: ctInsert rest uid path

/-- One iteration of the scan loop (lines 125–136). -/
def scanStep (maps : CTMap × RTMap) (f : ScanFile) : CTMap × RTMap :=
  match f.parsed with
  | none => maps
  | some (.ct uid) => (ctInsert maps.1 uid f.path, maps.2)
  | some (.rtstruct rt) =>
    match get_referenced_series_uid rt with
    | some uid => (maps.1, (uid, rt) :: maps.2)
    | none => maps
  | some .other => maps

/-- The whole scan loop. -/
def scanFiles (files : List ScanFile) : CTMap × RTMap :=
  files.foldl scanStep ([], [])

/-- `rt_map[uid]` lookup. -/
def rtLookup (rm : RTMap) (uid : String) : Option RTStruct :=
  (rm.find? (fun p => p.1 == uid)).map (·.2)

/-- `series_ids = list(set(ct_map) & set(rt_map))` (line 139); a Python
set is unordered, so only membership is meaningful. -/
def seriesIDs (cm : CTMap) (rm : RTMap) : List String :=
  ((cm.map (·.1)).dedup).filter (fun uid => (rtLookup rm uid).isSome)

/-! ## The Run Analysis loop (lines 163–202) -/

/-- The inputs consumed for one matched series inside the Run Analysis
loop: the CT files of `ct_map[uid]` and the RTSTRUCT of `rt_map[uid]`.
`none` models `pydicom.dcmread` raising at analysis time (the loop has
no exception handling). -/
structure SeriesUnit where
  uid : String
  ctFiles : Option (List Slice)
  rtDoc : Option RTStruct
deriving Repr

/-- The body of `for roi in selected_rois` (lines 175–200) for one
region: rasterize, select values, skip an empty selection (`continue`),
else append a record. -/
def regionStep (lr : LoadResult) (rt : RTStruct) (patient_id uid : String)
    (acc : List StatsRecord) (roi : String) : Option (List StatsRecord) := do
  let mask ← contour_to_mask rt roi (volumeShape lr.volume) lr.z_positions lr.spacing lr.origin
  let vals := maskedValues lr.volume mask
  if vals.length = 0 then pure acc
  else pure (acc ++ [mkRecord patient_id uid roi vals])

/-- The body of `for i, uid in enumerate(series_ids)` for one series:
load the CT volume, read the structure set, and run `regionStep` over
the selected regions.  `none` is an exception escaping the loop. -/
def processUnit (selected_rois : List String) (u : SeriesUnit) : Option (List StatsRecord) := do
  let files ← u.ctFiles
  let lr ← load_ct_series files
  let rt ← u.rtDoc
  let patient_id := ((lr.slices.headD default).patientID).getD "Unknown"
  selected_rois.foldlM (regionStep lr rt patient_id u.uid) []

/-- One iteration of the series loop: process the unit and append its
records to the accumulated `results` list. -/
def unitStep (selected_rois : List String) (acc : List StatsRecord) (u : SeriesUnit) :
    Option (List StatsRecord) := do
  pure (acc ++ (← processUnit selected_rois u))

/-- The Run Analysis loop over all matched series.  There is no
`try`/`except` around the body, so an exception (`none`) in any unit
escapes and aborts the whole run. -/
def runAnalysis (selected_rois : List String) (units : List SeriesUnit) :
    Option (List StatsRecord) :=
  units.foldlM (unitStep selected_rois) []

/-! ## Helper lemmas -/

theorem getD_replicate_eq {α : Type} (n i : ℕ) (x d : α) :
    (List.replicate n x).getD i d = if i < n then x else d := by
  split
  · rw [List.getD_eq_getElem _ _ (by simpa using ‹i < n›), List.getElem_replicate]
  · rw [List.getD_eq_getElem?_getD, List.getElem?_eq_none (by simpa using le_of_not_lt ‹¬i < n›)]
    rfl

theorem maskGet_zeros (sh : ℕ × ℕ × ℕ) (r c k : ℕ) :
    maskGet (zerosMask sh) r c k = false := by
  unfold maskGet zerosMask
  rw [getD_replicate_eq]
  split
  · rw [getD_replicate_eq]
    split
    · rw [getD_replicate_eq]; split <;> rfl
    · cases k <;> rfl
  · cases c <;> cases k <;> rfl

theorem hasDims_zeros (sh : ℕ × ℕ × ℕ) : hasDims (zerosMask sh) sh := by
  refine ⟨List.length_replicate _ _, fun row hrow => ?_⟩
  rw [List.eq_of_mem_replicate hrow]
  refine ⟨List.length_replicate _ _, fun col hcol => ?_⟩
  rw [List.eq_of_mem_replicate hcol]
  exact List.length_replicate _ _

/-! ## C1 -/

/-- A CT slice carrying explicit rescale attributes (`RescaleSlope = 2`,
`RescaleIntercept = -1024`) and the raw pixel value 100. -/
def sliceC1 : Slice :=
  { pixels := [[100]], ipp := (0, 0, 0), pixelSpacing := (1, 1),
    rescaleSlope := some 2, rescaleIntercept := some (-1024), patientID := none }

/-- **C1.** The claim says every volume element is `raw*slope + intercept`
with the first slice's slope/intercept.  The code never reads the rescale
attributes: for a slice with slope 2 and intercept −1024 and raw value
100, the loaded volume holds the raw value 100, not
`100*2 + (−1024) = −824`.  The app's own description promises HU
statistics, so this is a defect of the code, not of the claim. -/
theorem c1_loader_ignores_rescale :
    (load_ct_series [sliceC1]).map (fun lr => volGet lr.volume 0 0 0) = some 100 ∧
    sliceC1.rescaleSlope = some 2 ∧
    sliceC1.rescaleIntercept = some (-1024) ∧
    (100 : ℚ) ≠ 100 * 2 + (-1024) := by
  refine ⟨by decide, rfl, rfl, by norm_num⟩

/-! ## C3 -/

/-- Three slices, two of shape 1×1 and one of shape 2×1 (the majority
shape is 1×1). -/
def sliceC3a : Slice :=
  { pixels := [[1]], ipp := (0, 0, 0), pixelSpacing := (1, 1),
    rescaleSlope := none, rescaleIntercept := none, patientID := none }

def sliceC3b : Slice :=
  { pixels := [[2]], ipp := (0, 0, 1), pixelSpacing := (1, 1),
    rescaleSlope := none, rescaleIntercept := none, patientID := none }

def sliceC3c : Slice :=
  { pixels := [[3], [4]], ipp := (0, 0, 2), pixelSpacing := (1, 1),
    rescaleSlope := none, rescaleIntercept := none, patientID := none }

/-- **C3, counterexample.** The claim says a slice set with disagreeing
in-plane shapes still produces a Volume from the majority-shape subset.
On slices of shapes {1×1, 1×1, 2×1} the loader raises (`np.stack`
`ValueError`, modelled `none`) and produces no Volume at all, although
the majority subset alone would load fine. -/
theorem c3_counterexample :
    load_ct_series [sliceC3a, sliceC3b, sliceC3c] = none ∧
    load_ct_series [sliceC3a, sliceC3b] ≠ none := by decide

/-- **C3, amended.** If any two slices of the input disagree on in-plane
pixel shape, `load_ct_series` raises (no Volume, no majority-shape
filtering, no warning). -/
theorem c3_shape_mismatch_raises (files : List Slice) (a b : Slice)
    (ha : a ∈ files) (hb : b ∈ files)
    (hne : shapeOf a.pixels ≠ shapeOf b.pixels) :
    load_ct_series files = none := by
  match hf : files with
  | [] => cases ha
  | f :: fs =>
    rw [load_ct_series]
    have hperm : (sortSlices (f :: fs)).Perm (f :: fs) := List.perm_insertionSort _ _
    split
    · rename_i hok
      exfalso
      have ha' : a ∈ sortSlices (f :: fs) := hperm.mem_iff.mpr ha
      have hb' : b ∈ sortSlices (f :: fs) := hperm.mem_iff.mpr hb
      exact hne ((hok a ha').2.trans ((hok b hb').2).symm)
    · rfl

/-- **C3, amended, witness.** -/
theorem c3_shape_mismatch_raises_witness :
    load_ct_series [sliceC3a, sliceC3b, sliceC3c] = none :=
  c3_shape_mismatch_raises _ sliceC3a sliceC3c (by decide) (by decide) (by decide)

/-! ## C4 -/

/-- **C4.** For a slice set with pairwise distinct z positions that the
loader accepts, the produced `z_positions` are strictly ascending, and
the slice-gap spacing component is the absolute difference of the first
two ordered positions, degenerating to 1 for a single slice. -/
theorem c4_z_sorted_and_gap (files : List Slice) (lr : LoadResult)
    (h : load_ct_series files = some lr)
    (hdist : files.Pairwise (fun a b => zOf a ≠ zOf b)) :
    lr.z_positions.Sorted (· < ·) ∧
    lr.spacing.2.2 =
      (if 1 < lr.z_positions.length then
        |lr.z_positions.getD 1 0 - lr.z_positions.getD 0 0|
      else 1) := by
  cases files with
  | nil => simp [load_ct_series] at h
  | cons f fs =>
    rw [load_ct_series] at h
    split at h
    case isFalse => cases h
    case isTrue hok =>
    injection h with h
    subst h
    constructor
    · have hsorted : (sortSlices (f :: fs)).Sorted sliceLE :=
        List.sorted_insertionSort sliceLE (f :: fs)
      have hperm : (sortSlices (f :: fs)).Perm (f :: fs) := List.perm_insertionSort _ _
      have hdist' : (sortSlices (f :: fs)).Pairwise (fun a b => zOf a ≠ zOf b) :=
        (List.Perm.pairwise_iff (fun hxy => hxy.symm) hperm).mpr hdist
      have hlt : (sortSlices (f :: fs)).Pairwise (fun a b => zOf a < zOf b) :=
        (hsorted.and hdist').imp (fun hab => lt_of_le_of_ne hab.1 hab.2)
      simpa [List.Sorted, List.pairwise_map] using hlt
    · rfl

/-- Two slices with distinct z positions 0 and 3. -/
def sliceC4a : Slice :=
  { pixels := [[7]], ipp := (0, 0, 3), pixelSpacing := (1, 1),
    rescaleSlope := none, rescaleIntercept := none, patientID := none }

def sliceC4b : Slice :=
  { pixels := [[9]], ipp := (0, 0, 0), pixelSpacing := (1, 1),
    rescaleSlope := none, rescaleIntercept := none, patientID := none }

/-- The loader's result on `[sliceC4a, sliceC4b]` (sorted to z = 0, 3). -/
def lrC4 : LoadResult :=
  { volume := [[[9]], [[7]]], slices := [sliceC4b, sliceC4a],
    z_positions := [0, 3], spacing := (1, 1, 3), origin := (0, 0, 0) }

/-- **C4, witness.** -/
theorem c4_z_sorted_and_gap_witness :
    lrC4.z_positions.Sorted (· < ·) ∧
    lrC4.spacing.2.2 =
      (if 1 < lrC4.z_positions.length then
        |lrC4.z_positions.getD 1 0 - lrC4.z_positions.getD 0 0|
      else 1) :=
  c4_z_sorted_and_gap [sliceC4a, sliceC4b] lrC4 (by with_unfolding_all decide) (by decide)

/-! ## C6 -/

theorem npArgmin_spec (l : List ℚ) (h : l ≠ []) :
    npArgmin l < l.length ∧ ∀ j < l.length, l.getD (npArgmin l) 0 ≤ l.getD j 0 := by
  induction l with
  | nil => exact absurd rfl h
  | cons x xs ih =>
    cases xs with
    | nil =>
      refine ⟨by simp [npArgmin], fun j hj => ?_⟩
      have : j = 0 := Nat.lt_one_iff.mp (by simpa using hj)
      subst this; exact le_refl _
    | cons y ys =>
      have ihs := ih (by simp)
      have hdef : npArgmin (x :: y :: ys) =
          if x ≤ (y :: ys).getD (npArgmin (y :: ys)) 0 then 0
          else (npArgmin (y :: ys)) + 1 := rfl
      rw [hdef]
      split
      case isTrue hle =>
        refine ⟨by simp, fun j hj => ?_⟩
        cases j with
        | zero => simp
        | succ i =>
          rw [List.getD_cons_zero, List.getD_cons_succ]
          exact le_trans hle (ihs.2 i (by simpa using hj))
      case isFalse hgt =>
        refine ⟨by simpa using ihs.1, fun j hj => ?_⟩
        rw [List.getD_cons_succ]
        cases j with
        | zero => rw [List.getD_cons_zero]; exact le_of_lt (lt_of_not_le hgt)
        | succ i =>
          rw [List.getD_cons_succ]
          exact ihs.2 i (by simpa using hj)

theorem getD_map_lt (f : ℚ → ℚ) (l : List ℚ) (i : ℕ) (h : i < l.length) (d d' : ℚ) :
    (l.map f).getD i d = f (l.getD i d') := by
  rw [List.getD_eq_getElem _ _ (by simpa using h), List.getElem_map,
    List.getD_eq_getElem _ _ h]

/-- **C6.** For a nonempty `z_positions` array, the rasterizer's slice
assignment is always a valid slice index (some slice is always
assigned; no exact-match requirement exists), and its z position
minimizes the absolute difference to the contour's z over all slices. -/
theorem c6_nearest_slice_assignment (z_positions : List ℚ) (z : ℚ)
    (h : z_positions ≠ []) :
    sliceAssign z_positions z < z_positions.length ∧
    ∀ j < z_positions.length,
      |z_positions.getD (sliceAssign z_positions z) 0 - z| ≤
        |z_positions.getD j 0 - z| := by
  have hne : z_positions.map (fun zp => |zp - z|) ≠ [] := by
    simpa using h
  obtain ⟨hlt, hmin⟩ := npArgmin_spec _ hne
  rw [List.length_map] at hlt
  refine ⟨hlt, fun j hj => ?_⟩
  have h1 := hmin j (by simpa using hj)
  rw [getD_map_lt _ _ _ hlt 0 0, getD_map_lt _ _ _ hj 0 0] at h1
  exact h1

/-- **C6, witness.**  For slices at z positions 0, 4, 10 and a contour at
z = 5, a valid slice is assigned and beats (for instance) slice 0. -/
theorem c6_nearest_slice_assignment_witness :
    sliceAssign [0, 4, 10] 5 < 3 ∧
    |([0, 4, 10] : List ℚ).getD (sliceAssign [0, 4, 10] 5) 0 - 5| ≤
      |([0, 4, 10] : List ℚ).getD 0 0 - 5| :=
  ⟨(c6_nearest_slice_assignment [0, 4, 10] 5 (by decide)).1,
   (c6_nearest_slice_assignment [0, 4, 10] 5 (by decide)).2 0 (by decide)⟩

/-! ## C7 -/

/-- **C7.** A requested region name that matches no region of the
structure set makes `contour_to_mask` return — without raising — the
all-`False` mask of exactly the requested volume shape. -/
theorem c7_missing_region_all_false (rt : RTStruct) (roi_name : String)
    (sh : ℕ × ℕ × ℕ) (zs : List ℚ) (sp org : ℚ × ℚ × ℚ)
    (h : ∀ r ∈ rt.StructureSetROISequence, r.ROIName ≠ roi_name) :
    contour_to_mask rt roi_name sh zs sp org = some (zerosMask sh) ∧
    (∀ r c k, maskGet (zerosMask sh) r c k = false) ∧
    hasDims (zerosMask sh) sh := by
  have hnum : get_roi_number rt roi_name = none := by
    unfold get_roi_number
    rw [List.find?_eq_none.mpr (fun x hx => by simpa using h x hx)]
    rfl
  refine ⟨?_, fun r c k => maskGet_zeros sh r c k, hasDims_zeros sh⟩
  unfold contour_to_mask
  rw [hnum]

/-- A structure set with a single region named `Liver`. -/
def rtC7 : RTStruct :=
  { ReferencedFrameOfReferenceSequence := [],
    StructureSetROISequence := [{ ROIName := "Liver", ROINumber := 1 }],
    ROIContourSequence := [] }

/-- **C7, witness.** -/
theorem c7_missing_region_all_false_witness :
    contour_to_mask rtC7 "PTV_1" (2, 2, 1) [0] (1, 1, 1) (0, 0, 0) =
      some (zerosMask (2, 2, 1)) ∧
    maskGet (zerosMask (2, 2, 1)) 1 1 0 = false ∧
    hasDims (zerosMask (2, 2, 1)) (2, 2, 1) :=
  ⟨(c7_missing_region_all_false rtC7 "PTV_1" (2, 2, 1) [0] (1, 1, 1) (0, 0, 0)
      (by intro r hr; simp [rtC7] at hr; subst hr; decide)).1,
   (c7_missing_region_all_false rtC7 "PTV_1" (2, 2, 1) [0] (1, 1, 1) (0, 0, 0)
      (by intro r hr; simp [rtC7] at hr; subst hr; decide)).2.1 1 1 0,
   (c7_missing_region_all_false rtC7 "PTV_1" (2, 2, 1) [0] (1, 1, 1) (0, 0, 0)
      (by intro r hr; simp [rtC7] at hr; subst hr; decide)).2.2⟩

/-! ## C10 -/

theorem polygonPixels_mem_lt (rows cols : List ℚ) (sh2 : ℕ × ℕ) (p : ℕ × ℕ)
    (hp : p ∈ polygonPixels rows cols sh2) : p.1 < sh2.1 ∧ p.2 < sh2.2 := by
  unfold polygonPixels at hp
  have hmem := (List.mem_filter.mp hp).1
  obtain ⟨r, hr, hmap⟩ := List.mem_flatMap.mp hmem
  obtain ⟨c, hc, hpc⟩ := List.mem_map.mp hmap
  subst hpc
  exact ⟨List.mem_range.mp hr, List.mem_range.mp hc⟩

theorem hasDims_maskSet (m : Mask3) (sh : ℕ × ℕ × ℕ) (r c k : ℕ)
    (h : hasDims m sh) : hasDims (maskSet m r c k) sh := by
  unfold maskSet
  by_cases hr : r < m.length
  case neg => rw [List.set_eq_of_length_le (le_of_not_lt hr)]; exact h
  case pos =>
    refine ⟨by rw [List.length_set]; exact h.1, fun row hrow => ?_⟩
    rcases List.mem_or_eq_of_mem_set hrow with hmem | heq
    · exact h.2 row hmem
    · subst heq
      have hrowm : m.getD r [] ∈ m := by
        rw [List.getD_eq_getElem _ _ hr]; exact List.getElem_mem hr
      obtain ⟨hlen, hcols⟩ := h.2 _ hrowm
      by_cases hc : c < (m.getD r []).length
      case neg => rw [List.set_eq_of_length_le (le_of_not_lt hc)]; exact ⟨hlen, hcols⟩
      case pos =>
        refine ⟨by rw [List.length_set]; exact hlen, fun col hcol => ?_⟩
        rcases List.mem_or_eq_of_mem_set hcol with hmem2 | heq2
        · exact hcols col hmem2
        · subst heq2
          have hcolm : (m.getD r []).getD c [] ∈ m.getD r [] := by
            rw [List.getD_eq_getElem _ _ hc]; exact List.getElem_mem hc
          rw [List.length_set]
          exact hcols _ hcolm

theorem hasDims_foldl_maskSet (pix : List (ℕ × ℕ)) (k : ℕ) (sh : ℕ × ℕ × ℕ) :
    ∀ (m : Mask3), hasDims m sh →
      hasDims (pix.foldl (fun mm q => maskSet mm q.1 q.2 k) m) sh := by
  induction pix with
  | nil => exact fun m h => h
  | cons q qs ih => exact fun m h => ih _ (hasDims_maskSet _ _ _ _ _ h)

theorem foldlM_option_preserves {α β : Type} (P : β → Prop) (f : β → α → Option β)
    (hf : ∀ b a b', P b → f b a = some b' → P b') :
    ∀ (l : List α) (b b' : β), P b → l.foldlM f b = some b' → P b' := by
  intro l
  induction l with
  | nil =>
    intro b b' hb h
    rw [List.foldlM_nil] at h
    cases h
    exact hb
  | cons a as ih =>
    intro b b' hb h
    rw [List.foldlM_cons] at h
    cases hfa : f b a with
    | none => rw [hfa] at h; cases h
    | some b2 =>
      rw [hfa] at h
      exact ih b2 b' (hf b a b2 hb hfa) h

theorem contourStep_dims (sh : ℕ × ℕ × ℕ) (zs : List ℚ) (sp org : ℚ × ℚ × ℚ)
    (m : Mask3) (ct : ContourItem) (m' : Mask3)
    (h : hasDims m sh) (hs : contourStep sh zs sp org m ct = some m') :
    hasDims m' sh := by
  unfold contourStep at hs
  cases hc : chunk3 ct.ContourData with
  | none => rw [hc] at hs; cases hs
  | some pts =>
    rw [hc] at hs
    cases pts with
    | nil => cases hs
    | cons p0 rest =>
      cases zs with
      | nil => cases hs
      | cons z0 zrest =>
        cases hs
        exact hasDims_foldl_maskSet _ _ _ m h

/-- **C10.** The rasterizer clips the filled polygon to the in-plane
shape before writing: every pixel produced by the (shape-clipped)
polygon fill is strictly inside the in-plane bounds, and whenever
`contour_to_mask` returns a mask it has exactly the requested shape. -/
theorem c10_clip_and_shape :
    (∀ (rows cols : List ℚ) (sh2 : ℕ × ℕ) (p : ℕ × ℕ),
        p ∈ polygonPixels rows cols sh2 → p.1 < sh2.1 ∧ p.2 < sh2.2) ∧
    (∀ (rt : RTStruct) (roi_name : String) (sh : ℕ × ℕ × ℕ) (zs : List ℚ)
        (sp org : ℚ × ℚ × ℚ) (m : Mask3),
        contour_to_mask rt roi_name sh zs sp org = some m → hasDims m sh) := by
  refine ⟨polygonPixels_mem_lt, fun rt roi_name sh zs sp org m h => ?_⟩
  unfold contour_to_mask at h
  split at h
  · cases h; exact hasDims_zeros sh
  · split at h
    · cases h; exact hasDims_zeros sh
    · exact foldlM_option_preserves (hasDims · sh) _
        (fun b a b' hb hba => contourStep_dims sh zs sp org b a b' hb hba)
        _ (zerosMask sh) m (hasDims_zeros sh) h

/-! ## Concrete square-contour scenario (shared by several witnesses) -/

/-- One 1×1 CT slice with pixel value 5 at the origin. -/
def sliceSq : Slice :=
  { pixels := [[5]], ipp := (0, 0, 0), pixelSpacing := (1, 1),
    rescaleSlope := none, rescaleIntercept := none, patientID := some "P2" }

/-- A structure set with one region `R` (number 1) whose single contour
is a unit square centred on voxel (0, 0) of the z = 0 plane. -/
def rtSq : RTStruct :=
  { ReferencedFrameOfReferenceSequence :=
      [{ RTReferencedStudySequence :=
          [{ RTReferencedSeriesSequence := [{ SeriesInstanceUID := "S2" }] }] }],
    StructureSetROISequence := [{ ROIName := "R", ROINumber := 1 }],
    ROIContourSequence :=
      [{ ReferencedROINumber := 1,
         ContourSequence :=
          [{ ContourData :=
              [-(1/2), -(1/2), 0, 1/2, -(1/2), 0, 1/2, 1/2, 0, -(1/2), 1/2, 0] }] }] }

/-- **C10, witness.** -/
theorem c10_clip_and_shape_witness :
    (((0, 0) : ℕ × ℕ).1 < 1 ∧ ((0, 0) : ℕ × ℕ).2 < 1) ∧
    hasDims [[[true]]] (1, 1, 1) :=
  ⟨c10_clip_and_shape.1 [-(1/2), -(1/2), 1/2, 1/2] [-(1/2), 1/2, 1/2, -(1/2)]
      (1, 1) (0, 0) (by with_unfolding_all decide),
   c10_clip_and_shape.2 rtSq "R" (1, 1, 1) [0] (1, 1, 1) (0, 0, 0) [[[true]]]
      (by with_unfolding_all decide)⟩

/-! ## C8 -/

/-- The number of `True` voxels of a mask. -/
def trueCount (m : Mask3) : ℕ :=
  (m.map (fun row => (row.map (fun col => col.count true)).sum)).sum

/-- The arithmetic mean, as the spec words it. -/
def meanSpec (vals : List ℚ) : ℚ := vals.sum / vals.length

/-- The population variance (divisor `N`, not `N − 1`), written in the
moment form `E[x²] − E[x]²` — deliberately a different expression from
the deviation form used by `npVarPop` — so that the population standard
deviation is its square root. -/
def popVarSpec (vals : List ℚ) : ℚ :=
  (vals.map (fun x => x ^ 2)).sum / vals.length - meanSpec vals ^ 2

theorem map_enumFrom_snd {α β : Type} (l : List α) (g : α → β) :
    ∀ n, (List.enumFrom n l).map (fun p => g p.2) = l.map g := by
  induction l with
  | nil => intro n; rfl
  | cons x xs ih => intro n; simp only [List.enumFrom, List.map_cons, ih]

theorem map_enum_snd {α β : Type} (l : List α) (g : α → β) :
    l.enum.map (fun p => g p.2) = l.map g :=
  map_enumFrom_snd l g 0

theorem length_filter_enumFrom (col : List Bool) :
    ∀ n, ((List.enumFrom n col).filter (fun kb => kb.2)).length = col.count true := by
  induction col with
  | nil => intro n; rfl
  | cons b bs ih =>
    intro n
    cases b with
    | false =>
      simp only [List.enumFrom, List.filter, List.count_cons]
      simpa using ih (n + 1)
    | true =>
      simp only [List.enumFrom, List.filter, List.count_cons]
      simpa using ih (n + 1)

theorem length_trueCoords (m : Mask3) : (trueCoords m).length = trueCount m := by
  unfold trueCoords trueCount
  rw [List.length_flatMap]
  have hrow : ∀ rp : ℕ × List (List Bool),
      (rp.2.enum.flatMap (fun cp =>
        ((cp.2.enum.filter (fun kb => kb.2)).map (fun kb => (rp.1, cp.1, kb.1))))).length =
      (rp.2.map (fun col => col.count true)).sum := by
    intro rp
    rw [List.length_flatMap]
    have : ∀ cp : ℕ × List Bool,
        (List.length ∘ fun cp =>
          ((cp.2.enum.filter (fun kb => kb.2)).map (fun kb => (rp.1, cp.1, kb.1)))) cp =
        (fun col => col.count true) cp.2 := by
      intro cp
      simp only [Function.comp, List.length_map]
      exact length_filter_enumFrom cp.2 0
    rw [List.map_congr_left (fun cp _ => this cp), map_enum_snd]
  have : List.map (List.length ∘ fun rp =>
      (rp.2.enum.flatMap (fun cp =>
        ((cp.2.enum.filter (fun kb => kb.2)).map (fun kb => (rp.1, cp.1, kb.1)))))) m.enum =
      List.map (fun rp => (rp.2.map (fun col => col.count true)).sum) m.enum :=
    List.map_congr_left (fun rp _ => hrow rp)
  rw [this]
  exact congrArg List.sum
    (map_enum_snd m (fun row => (List.map (fun col => List.count true col) row).sum))

theorem sum_map_sq_dev (l : List ℚ) (μ : ℚ) :
    (l.map (fun x => (x - μ) ^ 2)).sum =
      (l.map (fun x => x ^ 2)).sum - 2 * μ * l.sum + l.length * μ ^ 2 := by
  induction l with
  | nil => simp
  | cons x xs ih =>
    simp only [List.map_cons, List.sum_cons, ih, List.length_cons]
    push_cast
    ring

theorem npVarPop_moment (vals : List ℚ) (h : vals ≠ []) :
    npVarPop vals = popVarSpec vals := by
  have hn : (vals.length : ℚ) ≠ 0 := by
    simpa using fun hc => h (List.length_eq_zero.mp hc)
  unfold npVarPop popVarSpec meanSpec npMean
  rw [sum_map_sq_dev]
  field_simp
  ring

/-- **C8.** For any volume and mask with a nonempty selection, the
emitted record's voxel count is the number of `True` mask positions, its
`Mean` is the arithmetic mean of the selected values, and the square of
its `STD` (`STDsq`, the `ddof=0` numpy standard deviation squared) is
the population variance `E[x²] − E[x]²` of the selected values — the
population, not sample, normalization. -/
theorem c8_stats_match (vol : List (List (List ℚ))) (m : Mask3) (pid uid roi : String)
    (h : maskedValues vol m ≠ []) :
    (mkRecord pid uid roi (maskedValues vol m)).N_voxels = trueCount m ∧
    (mkRecord pid uid roi (maskedValues vol m)).Mean = meanSpec (maskedValues vol m) ∧
    (mkRecord pid uid roi (maskedValues vol m)).STDsq = popVarSpec (maskedValues vol m) := by
  refine ⟨?_, rfl, npVarPop_moment _ h⟩
  show (maskedValues vol m).length = trueCount m
  unfold maskedValues
  rw [List.length_map]
  exact length_trueCoords m

/-- **C8, witness.**  A 1×1×2 volume holding the values 5 and 7 with
both voxels selected: count 2, mean 6, population variance 1. -/
theorem c8_stats_match_witness :
    (mkRecord "P" "S" "R" (maskedValues [[[5]], [[7]]] [[[true, true]]])).N_voxels =
      trueCount [[[true, true]]] ∧
    (mkRecord "P" "S" "R" (maskedValues [[[5]], [[7]]] [[[true, true]]])).Mean =
      meanSpec (maskedValues [[[5]], [[7]]] [[[true, true]]]) ∧
    (mkRecord "P" "S" "R" (maskedValues [[[5]], [[7]]] [[[true, true]]])).STDsq =
      popVarSpec (maskedValues [[[5]], [[7]]] [[[true, true]]]) :=
  c8_stats_match [[[5]], [[7]]] [[[true, true]]] "P" "S" "R"
    (by with_unfolding_all decide)

/-! ## Run Analysis loop lemmas (C2, C9) -/

theorem do_bind_some {α β : Type} (a : α) (f : α → Option β) :
    (do let x ← some a; f x : Option β) = f a := rfl

theorem do_bind_none {α β : Type} (f : α → Option β) :
    (do let x ← (none : Option α); f x : Option β) = none := rfl

theorem opt_pure_eq_some {α : Type} (a : α) : (pure a : Option α) = some a := rfl

theorem map_map_append (a recs : List StatsRecord) (X : Option (List StatsRecord)) :
    Option.map (fun x => (a ++ recs) ++ x) X =
      Option.map (a ++ ·) (Option.map (recs ++ ·) X) := by
  cases X with
  | none => rfl
  | some c => simp [List.append_assoc]

theorem foldlM_units_shift (rois : List String) (units : List SeriesUnit) :
    ∀ a : List StatsRecord,
      units.foldlM (unitStep rois) a = (runAnalysis rois units).map (a ++ ·) := by
  induction units with
  | nil =>
    intro a
    simp [runAnalysis, List.foldlM_nil]
  | cons u us ih =>
    intro a
    unfold runAnalysis
    rw [List.foldlM_cons, List.foldlM_cons]
    cases hp : processUnit rois u with
    | none =>
      have h1 : unitStep rois a u = none := by unfold unitStep; rw [hp]; rfl
      have h2 : unitStep rois [] u = none := by unfold unitStep; rw [hp]; rfl
      rw [h1, h2]
      rfl
    | some recs =>
      have h1 : unitStep rois a u = some (a ++ recs) := by unfold unitStep; rw [hp]; rfl
      have h2 : unitStep rois [] u = some recs := by unfold unitStep; rw [hp]; rfl
      rw [h1, h2, do_bind_some, do_bind_some, ih (a ++ recs)]
      have h3 := ih recs
      unfold runAnalysis at h3
      rw [h3]
      exact map_map_append a recs _

theorem runAnalysis_cons (rois : List String) (u : SeriesUnit) (us : List SeriesUnit) :
    runAnalysis rois (u :: us) =
      (do
        let b ← processUnit rois u
        let c ← runAnalysis rois us
        pure (b ++ c)) := by
  conv_lhs => unfold runAnalysis; rw [List.foldlM_cons]
  cases hp : processUnit rois u with
  | none =>
    have h2 : unitStep rois [] u = none := by unfold unitStep; rw [hp]; rfl
    rw [h2]
    rfl
  | some recs =>
    have h2 : unitStep rois [] u = some recs := by unfold unitStep; rw [hp]; rfl
    rw [h2, do_bind_some, foldlM_units_shift rois us recs]
    cases runAnalysis rois us with
    | none => rfl
    | some c => rfl

theorem runAnalysis_append (rois : List String) (xs ys : List SeriesUnit) :
    runAnalysis rois (xs ++ ys) =
      (do
        let a ← runAnalysis rois xs
        let c ← runAnalysis rois ys
        pure (a ++ c)) := by
  conv_lhs => unfold runAnalysis; rw [List.foldlM_append]
  have hx0 : runAnalysis rois xs = xs.foldlM (unitStep rois) [] := rfl
  cases hx : xs.foldlM (unitStep rois) ([] : List StatsRecord) with
  | none => rw [hx0, hx]; rfl
  | some a =>
    rw [hx0, hx, do_bind_some, foldlM_units_shift rois ys a]
    cases runAnalysis rois ys with
    | none => rfl
    | some c => rfl

theorem foldlM_skip_middle {α β : Type} (f : β → α → Option β) (x : α)
    (hx : ∀ b, f b x = some b) (l1 l2 : List α) (b : β) :
    (l1 ++ x :: l2).foldlM f b = (l1 ++ l2).foldlM f b := by
  rw [List.foldlM_append, List.foldlM_append]
  cases h1 : l1.foldlM f b with
  | none => rfl
  | some b2 =>
    rw [do_bind_some, do_bind_some, List.foldlM_cons, hx b2, do_bind_some]

/-! ## C9 -/

/-- **C9.** A region whose mask selects zero voxels is skipped by the
`continue` without a record and without an exception: processing the
unit with that region requested equals processing it with the region
dropped, and in a batch, the units before and after still contribute
exactly their own records. -/
theorem c9_empty_mask_skipped (u : SeriesUnit) (files : List Slice) (lr : LoadResult)
    (rt : RTStruct) (mask : Mask3) (l1 l2 : List String) (roi : String)
    (us1 us2 : List SeriesUnit)
    (hf : u.ctFiles = some files) (hl : load_ct_series files = some lr)
    (hr : u.rtDoc = some rt)
    (hm : contour_to_mask rt roi (volumeShape lr.volume) lr.z_positions lr.spacing
      lr.origin = some mask)
    (he : maskedValues lr.volume mask = []) :
    processUnit (l1 ++ roi :: l2) u = processUnit (l1 ++ l2) u ∧
    runAnalysis (l1 ++ roi :: l2) (us1 ++ u :: us2) =
      (do
        let a ← runAnalysis (l1 ++ roi :: l2) us1
        let b ← processUnit (l1 ++ l2) u
        let c ← runAnalysis (l1 ++ roi :: l2) us2
        pure (a ++ b ++ c)) := by
  have hstep : ∀ acc,
      regionStep lr rt ((lr.slices.headD default).patientID.getD "Unknown") u.uid acc roi =
        some acc := by
    intro acc
    unfold regionStep
    rw [hm, do_bind_some, he]
    rfl
  have hpu : processUnit (l1 ++ roi :: l2) u = processUnit (l1 ++ l2) u := by
    unfold processUnit
    rw [hf, do_bind_some, do_bind_some, hl, do_bind_some, do_bind_some, hr,
      do_bind_some, do_bind_some]
    exact foldlM_skip_middle _ roi hstep l1 l2 []
  refine ⟨hpu, ?_⟩
  rw [runAnalysis_append, runAnalysis_cons, hpu]
  cases runAnalysis (l1 ++ roi :: l2) us1 with
  | none => rfl
  | some a =>
    rw [do_bind_some, do_bind_some]
    cases processUnit (l1 ++ l2) u with
    | none => rfl
    | some b =>
      rw [do_bind_some, do_bind_some]
      cases runAnalysis (l1 ++ roi :: l2) us2 with
      | none => rfl
      | some c => simp [List.append_assoc]

/-- The loader's result on `[sliceSq]`. -/
def lrSq : LoadResult :=
  { volume := [[[5]]], slices := [sliceSq], z_positions := [0],
    spacing := (1, 1, 1), origin := (0, 0, 0) }

/-- The matched series unit whose square region `R` selects one voxel. -/
def uSq : SeriesUnit := { uid := "S2", ctFiles := some [sliceSq], rtDoc := some rtSq }

/-- **C9, witness.**  Region `E` does not exist in `rtSq`, so its mask is
all-`False` (zero voxels): requesting `[E, R]` behaves like `[R]`. -/
theorem c9_empty_mask_skipped_witness :
    processUnit ["E", "R"] uSq = processUnit ["R"] uSq ∧
    runAnalysis ["E", "R"] [uSq] =
      (do
        let a ← runAnalysis ["E", "R"] []
        let b ← processUnit ["R"] uSq
        let c ← runAnalysis ["E", "R"] []
        pure (a ++ b ++ c)) :=
  c9_empty_mask_skipped uSq [sliceSq] lrSq rtSq (zerosMask (1, 1, 1)) [] ["R"] "E" [] []
    rfl (by with_unfolding_all decide) rfl (by with_unfolding_all decide)
    (by with_unfolding_all decide)

/-! ## C2 -/

/-- A series unit whose CT files fail to parse at analysis time
(`pydicom.dcmread` raises inside the Run Analysis loop). -/
def uBad : SeriesUnit := { uid := "S1", ctFiles := none, rtDoc := some rtSq }

/-- The record `uSq` produces for region `R`. -/
def recSq : StatsRecord :=
  { PatientID := "P2", SeriesUID := "S2", ROI := "R",
    Mean := 5, STDsq := 0, MinV := 5, MaxV := 5, N_voxels := 1 }

/-- **C2, counterexample.**  The claim says a parse failure in one unit
leaves every other unit's records in the table.  With `uBad` (whose CT
read raises) followed by the healthy `uSq`, the run aborts with an
exception and produces no table at all, although `uSq` alone produces
its record. -/
theorem c2_counterexample :
    runAnalysis ["R"] [uBad, uSq] = none ∧
    runAnalysis ["R"] [uSq] = some [recSq] :=
  ⟨by with_unfolding_all decide, by with_unfolding_all decide⟩

/-- **C2, amended.**  Only the empty-mask case is tolerated (the
`continue`); a unit in which an exception occurs (parse or
load failure, `processUnit = none`) aborts the whole batch run: no
record of any unit — before or after it — is produced. -/
theorem c2_unit_failure_aborts_batch (rois : List String) (us1 us2 : List SeriesUnit)
    (u : SeriesUnit) (h : processUnit rois u = none) :
    runAnalysis rois (us1 ++ u :: us2) = none := by
  rw [runAnalysis_append, runAnalysis_cons, h]
  cases runAnalysis rois us1 with
  | none => rfl
  | some a => rfl

/-- **C2, amended, witness.** -/
theorem c2_unit_failure_aborts_batch_witness :
    runAnalysis ["R"] [uBad, uSq] = none :=
  c2_unit_failure_aborts_batch ["R"] [] [uSq] uBad rfl

/-! ## C5 -/

theorem ctInsert_keys (m : CTMap) (uid path : String) (x : String) :
    x ∈ (ctInsert m uid path).map Prod.fst ↔ x ∈ m.map Prod.fst ∨ x = uid := by
  induction m with
  | nil => simp [ctInsert]
  | cons p rest ih =>
    obtain ⟨k, ps⟩ := p
    by_cases hk : k = uid
    · subst hk
      simp [ctInsert]
      tauto
    · simp [ctInsert, hk, ih]
      tauto

theorem scan_foldl_inv (files : List ScanFile) :
    ∀ acc : CTMap × RTMap,
      (∀ uid, uid ∈ (files.foldl scanStep acc).1.map Prod.fst ↔
        (uid ∈ acc.1.map Prod.fst ∨ ∃ f ∈ files, f.parsed = some (.ct uid))) ∧
      (∀ uid rt, (uid, rt) ∈ (files.foldl scanStep acc).2 ↔
        ((uid, rt) ∈ acc.2 ∨ ∃ f ∈ files, f.parsed = some (.rtstruct rt) ∧
          get_referenced_series_uid rt = some uid)) := by
  induction files with
  | nil => intro acc; simp
  | cons f fs ih =>
    intro acc
    rw [List.foldl_cons]
    cases hp : f.parsed with
    | none =>
      have hs : scanStep acc f = acc := by simp [scanStep, hp]
      rw [hs]
      constructor
      · intro uid
        rw [(ih acc).1 uid]
        simp [hp]
      · intro uid rt
        rw [(ih acc).2 uid rt]
        simp [hp]
    | some d =>
      cases d with
      | ct uid' =>
        have hs : scanStep acc f = (ctInsert acc.1 uid' f.path, acc.2) := by
          simp [scanStep, hp]
        rw [hs]
        constructor
        · intro uid
          rw [(ih _).1 uid]
          show uid ∈ (ctInsert acc.1 uid' f.path).map Prod.fst ∨ _ ↔ _
          rw [ctInsert_keys]
          simp [hp]
          constructor
          · rintro ((h | h) | h)
            · exact Or.inl h
            · exact Or.inr (Or.inl h.symm)
            · exact Or.inr (Or.inr h)
          · rintro (h | h | h)
            · exact Or.inl (Or.inl h)
            · exact Or.inl (Or.inr h.symm)
            · exact Or.inr h
        · intro uid rt
          rw [(ih _).2 uid rt]
          simp [hp]
      | rtstruct rt' =>
        cases hr : get_referenced_series_uid rt' with
        | none =>
          have hs : scanStep acc f = acc := by simp [scanStep, hp, hr]
          rw [hs]
          constructor
          · intro uid
            rw [(ih acc).1 uid]
            simp [hp]
          · intro uid rt
            rw [(ih acc).2 uid rt]
            simp only [List.mem_cons]
            constructor
            · rintro (h | ⟨g, hg, hgp, hgr⟩)
              · exact Or.inl h
              · exact Or.inr ⟨g, Or.inr hg, hgp, hgr⟩
            · rintro (h | ⟨g, hg | hg, hgp, hgr⟩)
              · exact Or.inl h
              · subst hg
                rw [hp] at hgp
                injection hgp with hgp
                cases hgp
                rw [hr] at hgr
                cases hgr
              · exact Or.inr ⟨g, hg, hgp, hgr⟩
        | some uid0 =>
          have hs : scanStep acc f = (acc.1, (uid0, rt') :: acc.2) := by
            simp [scanStep, hp, hr]
          rw [hs]
          constructor
          · intro uid
            rw [(ih _).1 uid]
            simp [hp]
          · intro uid rt
            rw [(ih _).2 uid rt]
            show (uid, rt) ∈ (uid0, rt') :: acc.2 ∨ _ ↔ _
            simp only [List.mem_cons]
            constructor
            · rintro ((h | h) | h)
              · injection h with h1 h2
                subst h1; subst h2
                exact Or.inr ⟨f, Or.inl rfl, by rw [hp], hr⟩
              · exact Or.inl h
              · obtain ⟨g, hg, hgp, hgr⟩ := h
                exact Or.inr ⟨g, Or.inr hg, hgp, hgr⟩
            · rintro (h | ⟨g, hg | hg, hgp, hgr⟩)
              · exact Or.inl (Or.inr h)
              · subst hg
                rw [hp] at hgp
                injection hgp with hgp
                cases hgp
                rw [hr] at hgr
                injection hgr with hgr
                subst hgr
                exact Or.inl (Or.inl rfl)
              · exact Or.inr ⟨g, hg, hgp, hgr⟩
      | other =>
        have hs : scanStep acc f = acc := by simp [scanStep, hp]
        rw [hs]
        constructor
        · intro uid
          rw [(ih acc).1 uid]
          simp [hp]
        · intro uid rt
          rw [(ih acc).2 uid rt]
          simp [hp]

theorem rtLookup_some_spec (rm : RTMap) (uid : String) (rt : RTStruct)
    (h : rtLookup rm uid = some rt) : (uid, rt) ∈ rm := by
  unfold rtLookup at h
  cases hf : rm.find? (fun p => p.1 == uid) with
  | none => rw [hf] at h; cases h
  | some p =>
    rw [hf] at h
    injection h with h
    subst h
    have hm := List.mem_of_find?_eq_some hf
    have hpk := List.find?_some hf
    obtain ⟨k, v⟩ := p
    have : k = uid := by simpa using hpk
    subst this
    exact hm

theorem rtLookup_isSome_iff (rm : RTMap) (uid : String) :
    (rtLookup rm uid).isSome = true ↔ ∃ rt, (uid, rt) ∈ rm := by
  have hmapiso : ∀ o : Option (String × RTStruct),
      (Option.map (fun x => x.2) o).isSome = o.isSome := by
    intro o; cases o <;> rfl
  unfold rtLookup
  rw [hmapiso, List.find?_isSome]
  constructor
  · rintro ⟨p, hp, hpk⟩
    obtain ⟨k, v⟩ := p
    have : k = uid := by simpa using hpk
    subst this
    exact ⟨v, hp⟩
  · rintro ⟨rt, hrt⟩
    exact ⟨(uid, rt), hrt, by simp⟩

/-- **C5.** The series matcher retains exactly the identifiers present
both as a CT series and as the (well-formed) referenced series of some
structure-set — exact string equality, nothing fuzzy — and pairs every
retained identifier with a structure-set whose reference chain names it.
A structure-set whose chain is malformed or absent
(`get_referenced_series_uid = none`) is skipped and can never make an
identifier eligible; the scan itself is total (never fatal). -/
theorem c5_series_matching (files : List ScanFile) :
    (∀ uid, uid ∈ seriesIDs (scanFiles files).1 (scanFiles files).2 ↔
      ((∃ f ∈ files, f.parsed = some (.ct uid)) ∧
       (∃ f ∈ files, ∃ rt, f.parsed = some (.rtstruct rt) ∧
          get_referenced_series_uid rt = some uid))) ∧
    (∀ uid ∈ seriesIDs (scanFiles files).1 (scanFiles files).2,
      ∃ rt, rtLookup (scanFiles files).2 uid = some rt ∧
        get_referenced_series_uid rt = some uid) := by
  have inv := scan_foldl_inv files ([], [])
  have hkey : ∀ uid, uid ∈ (scanFiles files).1.map Prod.fst ↔
      ∃ f ∈ files, f.parsed = some (.ct uid) := by
    intro uid
    unfold scanFiles
    rw [(inv.1 uid)]
    simp
  have hrt : ∀ uid rt, (uid, rt) ∈ (scanFiles files).2 ↔
      ∃ f ∈ files, f.parsed = some (.rtstruct rt) ∧
        get_referenced_series_uid rt = some uid := by
    intro uid rt
    unfold scanFiles
    rw [(inv.2 uid rt)]
    simp
  constructor
  · intro uid
    unfold seriesIDs
    rw [List.mem_filter, List.mem_dedup, hkey uid, rtLookup_isSome_iff]
    constructor
    · rintro ⟨hct, rt, hmem⟩
      obtain ⟨g, hg, hgp, hgr⟩ := (hrt uid rt).mp hmem
      exact ⟨hct, g, hg, rt, hgp, hgr⟩
    · rintro ⟨hct, f, hf, rt, hfp, hfr⟩
      refine ⟨hct, ?_⟩
      exact ⟨rt, (hrt uid rt).mpr ⟨f, hf, hfp, hfr⟩⟩
  · intro uid hmem
    unfold seriesIDs at hmem
    have hcond := (List.mem_filter.mp hmem).2
    obtain ⟨rt, hrt'⟩ := Option.isSome_iff_exists.mp hcond
    have hpair := rtLookup_some_spec _ _ _ hrt'
    have := (hrt uid rt).mp hpair
    obtain ⟨f, _, _, hfr⟩ := this
    exact ⟨rt, hrt', hfr⟩

/-- A structure-set document whose reference chain names series `S1`. -/
def rtRefS1 : RTStruct :=
  { ReferencedFrameOfReferenceSequence :=
      [{ RTReferencedStudySequence :=
          [{ RTReferencedSeriesSequence := [{ SeriesInstanceUID := "S1" }] }] }],
    StructureSetROISequence := [], ROIContourSequence := [] }

/-- A scan input with one CT file of series `S1` and one RTSTRUCT
referencing `S1`. -/
def filesW : List ScanFile :=
  [{ path := "ct1", parsed := some (.ct "S1") },
   { path := "rt1", parsed := some (.rtstruct rtRefS1) }]

/-- **C5, witness.** -/
theorem c5_series_matching_witness :
    rtLookup (scanFiles filesW).2 "S1" = some rtRefS1 ∧
    get_referenced_series_uid rtRefS1 = some "S1" := by
  obtain ⟨rt, h1, h2⟩ := (c5_series_matching filesW).2 "S1" (by with_unfolding_all decide)
  have he : rtLookup (scanFiles filesW).2 "S1" = some rtRefS1 := by
    with_unfolding_all decide
  rw [he] at h1
  injection h1 with h1
  subst h1
  exact ⟨he, h2⟩
